import Mathlib

set_option maxRecDepth 8000

/-!
Shallow embedding of the LunarMarkets dashboard binary codec layer:
`src/dashboard/src/lib/solana.ts` (slab decoding) and
`src/dashboard/src/lib/transactions.ts` (instruction encoding).

Buffers are modelled as `List Nat` of bytes (each byte `< 256` in any
buffer Node.js can produce; readers are total and follow the source's
bounds checks literally).
-/

namespace LunarMarkets

/-- Little-endian value of a byte list: `new BN(buf, 'le')`. -/
def leNat : List Nat → Nat
  | [] => 0
  | b :: bs => b + 256 * leNat bs

/-- Little-endian bytes of `x`, `n` bytes wide (the digits of `x` in base 256,
truncated to `n` bytes). -/
def natLE (x : Nat) : Nat → List Nat
  | 0 => []
  | n + 1 => (x % 256) :: natLE (x / 256) n

/-- `buf.slice(off, off + n)` (JavaScript slice, clamping at the ends). -/
def slice (data : List Nat) (off n : Nat) : List Nat :=
  (data.drop off).take n

/-! ### Buffer reading helpers (solana.ts lines 124-180)

Offsets in the source are JavaScript numbers; every call site passes a
nonnegative offset, so offsets are `Nat` here and the `offset < 0` branch
of each guard is vacuous. -/

/-- `readU8`: out-of-range reads return 0. -/
def readU8 (data : List Nat) (offset : Nat) : Nat :=
  if offset ≥ data.length then 0 else data.getD offset 0

/-- `readU16`: little-endian, out-of-range reads return 0. -/
def readU16 (data : List Nat) (offset : Nat) : Nat :=
  if offset + 2 > data.length then 0 else leNat (slice data offset 2)

/-- `readU32`: little-endian, out-of-range reads return 0. -/
def readU32 (data : List Nat) (offset : Nat) : Nat :=
  if offset + 4 > data.length then 0 else leNat (slice data offset 4)

/-- `readU64`: two u32 reads combined as `high * 2^32 + low`. -/
def readU64 (data : List Nat) (offset : Nat) : Nat :=
  if offset + 8 > data.length then 0
  else
    let low := leNat (slice data offset 4)
    let high := leNat (slice data (offset + 4) 4)
    high * 2 ^ 32 + low

/-- `readI64`: unsigned little-endian value, minus `2^64` when the top bit of
byte 7 is set. -/
def readI64 (data : List Nat) (offset : Nat) : Int :=
  if offset + 8 > data.length then 0
  else
    let buf := slice data offset 8
    let value : Nat := leNat buf
    if buf.getD 7 0 &&& 0x80 ≠ 0 then (value : Int) - 2 ^ 64 else (value : Int)

/-- `readU128`: two u64 reads combined as `high * 2^64 + low`. -/
def readU128 (data : List Nat) (offset : Nat) : Nat :=
  if offset + 16 > data.length then 0
  else
    let low := readU64 data offset
    let high := readU64 data (offset + 8)
    high * 2 ^ 64 + low

/-- `readI128`: unsigned little-endian value, minus `2^128` when the top bit
of byte 15 is set. -/
def readI128 (data : List Nat) (offset : Nat) : Int :=
  if offset + 16 > data.length then 0
  else
    let buf := slice data offset 16
    let value : Nat := leNat buf
    if buf.getD 15 0 &&& 0x80 ≠ 0 then (value : Int) - 2 ^ 128 else (value : Int)

/-- `readPubkey`: a 32-byte slice; out-of-range reads yield 32 zero bytes. -/
def readPubkey (data : List Nat) (offset : Nat) : List Nat :=
  if offset + 32 > data.length then List.replicate 32 0
  else slice data offset 32

/-! ### Layout constants (solana.ts lines 16-96) -/

def CONFIG_OFFSET : Nat := 72
def CONFIG_LEN : Nat := 320
def CONFIG_LAST_EFFECTIVE_PRICE_OFF : Nat := 312
def ENGINE_OFF : Nat := 392
def ENGINE_VAULT_OFF : Nat := 0
def ENGINE_INSURANCE_OFF : Nat := 16
def ENGINE_FUNDING_INDEX_OFF : Nat := 200
def ENGINE_LAST_FUNDING_SLOT_OFF : Nat := 216
def ENGINE_TOTAL_OI_OFF : Nat := 248
def ENGINE_C_TOT_OFF : Nat := 264
def ENGINE_BITMAP_OFF : Nat := 408
def ENGINE_NUM_USED_OFF : Nat := 920
def ENGINE_NEXT_ACCOUNT_ID_OFF : Nat := 928
def ENGINE_FREE_HEAD_OFF : Nat := 936
def ENGINE_ACCOUNTS_OFF : Nat := 9136
def BITMAP_WORDS : Nat := 64
def MAX_ACCOUNTS : Nat := 4096
def ACCOUNT_SIZE : Nat := 240

def ACCT_ACCOUNT_ID_OFF : Nat := 0
def ACCT_CAPITAL_OFF : Nat := 8
def ACCT_KIND_OFF : Nat := 24
def ACCT_PNL_OFF : Nat := 32
def ACCT_RESERVED_PNL_OFF : Nat := 48
def ACCT_WARMUP_STARTED_OFF : Nat := 56
def ACCT_WARMUP_SLOPE_OFF : Nat := 64
def ACCT_POSITION_SIZE_OFF : Nat := 80
def ACCT_ENTRY_PRICE_OFF : Nat := 96
def ACCT_FUNDING_INDEX_OFF : Nat := 104
def ACCT_MATCHER_PROGRAM_OFF : Nat := 120
def ACCT_MATCHER_CONTEXT_OFF : Nat := 152
def ACCT_OWNER_OFF : Nat := 184
def ACCT_FEE_CREDITS_OFF : Nat := 216
def ACCT_LAST_FEE_SLOT_OFF : Nat := 232

/-- The 8-byte magic, read as little-endian u64: "PERCOLAT". -/
def expectedMagic : Nat := 0x504552434F4C4154

/-! ### Decoded structures (the fields of `@/types` touched by the parser) -/

/-- One decoded position record (solana.ts `parseAccount` result). `BN`
fields hold arbitrary-precision integers; pubkeys are 32-byte lists. -/
structure AccountData where
  accountId : Nat
  capital : Nat
  kind : Nat
  pnl : Int
  reservedPnl : Nat
  warmupStartedAtSlot : Nat
  warmupSlopePerStep : Nat
  positionSize : Int
  entryPrice : Nat
  fundingIndex : Int
  matcherProgram : List Nat
  matcherContext : List Nat
  owner : List Nat
  feeCredits : Int
  lastFeeSlot : Nat
  deriving Repr, DecidableEq

/-- The decode result of `fetchSlabData` (the fields computed from the raw
buffer; the account address argument is not part of the byte-level codec). -/
structure SlabData where
  accounts : List AccountData
  totalAccounts : Nat
  vaultBalance : Nat
  vaultAddress : List Nat
  vaultAuthorityBump : Nat
  unitScale : Nat
  insuranceFund : Nat
  globalFundingIndex : Int
  lastFundingSlot : Nat
  oraclePriceE6 : Nat
  totalOpenInterest : Nat
  cTot : Nat
  deriving Repr, DecidableEq

/-- The ways the decode path of `fetchSlabData` can throw on a present
buffer: Node's `readBigUInt64LE`/`readUInt32LE` range errors, the explicit
magic check, and the `PublicKey` length check on the vault address bytes. -/
inductive DecodeError where
  | rangeError
  | magicMismatch
  | invalidPubkey
  deriving Repr, DecidableEq

deriving instance DecidableEq for Except

/-! ### parseAccount (solana.ts lines 297-345)

No statement inside the `try` block can throw (every read helper is
bounds-guarded), so the `catch` branch is dead and the function returns
`none` exactly on the sanity-ceiling check. -/

def parseAccount (data : List Nat) (idx : Nat) : Option AccountData :=
  let storedAccountId := readU64 data ACCT_ACCOUNT_ID_OFF
  if storedAccountId > 1000000 then none
  else some {
    accountId := idx
    capital := readU128 data ACCT_CAPITAL_OFF
    kind := readU8 data ACCT_KIND_OFF
    pnl := readI128 data ACCT_PNL_OFF
    reservedPnl := readU64 data ACCT_RESERVED_PNL_OFF
    warmupStartedAtSlot := readU64 data ACCT_WARMUP_STARTED_OFF
    warmupSlopePerStep := readU128 data ACCT_WARMUP_SLOPE_OFF
    positionSize := readI128 data ACCT_POSITION_SIZE_OFF
    entryPrice := readU64 data ACCT_ENTRY_PRICE_OFF
    fundingIndex := readI128 data ACCT_FUNDING_INDEX_OFF
    matcherProgram := readPubkey data ACCT_MATCHER_PROGRAM_OFF
    matcherContext := readPubkey data ACCT_MATCHER_CONTEXT_OFF
    owner := readPubkey data ACCT_OWNER_OFF
    feeCredits := readI128 data ACCT_FEE_CREDITS_OFF
    lastFeeSlot := readU64 data ACCT_LAST_FEE_SLOT_OFF
  }

/-! ### The bitmap scan (solana.ts lines 250-278)

The nested `for` loops are modelled with explicit fuel (64 words, 64 bits),
matching the loop bounds; `break` ends the current recursion, and the
`parsedCount < numUsedAccounts` loop guards are the `parsed ≥ numUsed`
early returns.  Each call returns the records it appended together with the
updated `parsedCount`. -/

/-- The inner bit loop of one bitmap word. `fuel` is `64 - bitIdx`. -/
def scanBits (data : List Nat) (numUsed word wordIdx : Nat) :
    Nat → Nat → Nat → List AccountData × Nat
  | _, 0, parsed => ([], parsed)
  | bitIdx, fuel + 1, parsed =>
    if parsed ≥ numUsed then ([], parsed)
    else if word.testBit bitIdx then
      let idx := wordIdx * 64 + bitIdx
      if idx ≥ MAX_ACCOUNTS then ([], parsed)
      else
        let accountOffset := ENGINE_OFF + ENGINE_ACCOUNTS_OFF + idx * ACCOUNT_SIZE
        if accountOffset + ACCOUNT_SIZE > data.length then ([], parsed)
        else
          let accountData := slice data accountOffset ACCOUNT_SIZE
          match parseAccount accountData idx with
          | some a =>
            let rest := scanBits data numUsed word wordIdx (bitIdx + 1) fuel (parsed + 1)
            (a :: rest.1, rest.2)
          | none => scanBits data numUsed word wordIdx (bitIdx + 1) fuel parsed
    else scanBits data numUsed word wordIdx (bitIdx + 1) fuel parsed

/-- The outer word loop over the bitmap. `fuel` is `64 - wordIdx`. -/
def scanWords (data : List Nat) (numUsed : Nat) :
    Nat → Nat → Nat → List AccountData × Nat
  | _, 0, parsed => ([], parsed)
  | wordIdx, fuel + 1, parsed =>
    if parsed ≥ numUsed then ([], parsed)
    else
      let wordOffset := ENGINE_OFF + ENGINE_BITMAP_OFF + wordIdx * 8
      if wordOffset + 8 > data.length then ([], parsed)
      else
        let word := leNat (slice data wordOffset 8)
        if word = 0 then scanWords data numUsed (wordIdx + 1) fuel parsed
        else
          let this := scanBits data numUsed word wordIdx 0 64 parsed
          let rest := scanWords data numUsed (wordIdx + 1) fuel this.2
          (this.1 ++ rest.1, rest.2)

/-! ### fetchSlabData's decode of the raw buffer (solana.ts lines 186-296)

The network fetch is out of scope; `decodeSlab` is the pure function from
the fetched bytes to the returned `SlabData`, with each `throw` modelled as
`Except.error`:
  * `data.readBigUInt64LE(0)` throws a range error when the buffer is
    shorter than 8 bytes;
  * the explicit magic comparison throws on mismatch;
  * `new PublicKey(configData.slice(32, 64))` throws when the slice is
    shorter than 32 bytes (buffer shorter than 136 bytes);
  * `configData.readUInt32LE(312)` / `(316)` throw a range error when the
    config slice is shorter than 316 resp. 320 bytes.
`configData[106]` yields `undefined` (not a throw) on a short buffer; it is
modelled as 0, and no claim inspects the bump on such buffers. -/

def decodeSlab (data : List Nat) : Except DecodeError SlabData :=
  if data.length < 8 then .error .rangeError
  else
    let magic := leNat (slice data 0 8)
    if magic ≠ expectedMagic then .error .magicMismatch
    else
      let configData := slice data CONFIG_OFFSET CONFIG_LEN
      let vaultPubkeyBytes := (configData.drop 32).take 32
      if vaultPubkeyBytes.length < 32 then .error .invalidPubkey
      else if configData.length < CONFIG_LEN then .error .rangeError
      else
        let vaultAuthorityBump := configData.getD 106 0
        let unitScale := readU32 configData 108
        let oraclePriceLow := leNat (slice configData CONFIG_LAST_EFFECTIVE_PRICE_OFF 4)
        let oraclePriceHigh := leNat (slice configData (CONFIG_LAST_EFFECTIVE_PRICE_OFF + 4) 4)
        let oraclePriceE6 := oraclePriceHigh * 2 ^ 32 + oraclePriceLow
        let engineData := data.drop ENGINE_OFF
        let vault := readU128 engineData ENGINE_VAULT_OFF
        let insuranceBalance := readU128 engineData ENGINE_INSURANCE_OFF
        let totalOpenInterest := readU128 engineData ENGINE_TOTAL_OI_OFF
        let cTot := readU128 engineData ENGINE_C_TOT_OFF
        let fundingIndex := readU128 engineData ENGINE_FUNDING_INDEX_OFF
        let lastFundingSlot := readU64 engineData ENGINE_LAST_FUNDING_SLOT_OFF
        let numUsedAccounts := readU16 engineData ENGINE_NUM_USED_OFF
        let accounts := (scanWords data numUsedAccounts 0 BITMAP_WORDS 0).1
        .ok {
          accounts := accounts
          totalAccounts := accounts.length
          vaultBalance := vault
          vaultAddress := vaultPubkeyBytes
          vaultAuthorityBump := vaultAuthorityBump
          unitScale := unitScale
          insuranceFund := insuranceBalance
          globalFundingIndex := (fundingIndex : Int)
          lastFundingSlot := lastFundingSlot
          oraclePriceE6 := oraclePriceE6
          totalOpenInterest := totalOpenInterest
          cTot := cTot
        }

/-! ### Instruction encoding (transactions.ts lines 10-60, 214-219)

Node's `Buffer.write*` methods throw a range error when the value does not
fit the field, so each encoder returns `Option`; `none` is the thrown
error. -/

/-- Instruction tags (`IX_TAG`). -/
def IX_TAG_InitUser : Nat := 1
def IX_TAG_InitLP : Nat := 2
def IX_TAG_DepositCollateral : Nat := 3
def IX_TAG_WithdrawCollateral : Nat := 4
def IX_TAG_TradeNoCpi : Nat := 6
def IX_TAG_TradeCpi : Nat := 10

/-- `encU8`: one byte; `writeUInt8` throws outside `[0, 255]`. -/
def encU8 (value : Nat) : Option (List Nat) :=
  if value < 2 ^ 8 then some [value] else none

/-- `encU16`: two little-endian bytes; `writeUInt16LE` throws outside
`[0, 65535]`. -/
def encU16 (value : Nat) : Option (List Nat) :=
  if value < 2 ^ 16 then some (natLE value 2) else none

/-- `encU64`: eight little-endian bytes; `writeBigUInt64LE` throws outside
`[0, 2^64)` (the value arrives as a `BN`/string, so it may be signed). -/
def encU64 (value : Int) : Option (List Nat) :=
  if 0 ≤ value ∧ value < 2 ^ 64 then some (natLE value.toNat 8) else none

/-- The add-1-with-carry loop of `encI128`.  The source loop stops as soon
as the carry is zero; propagating a zero carry further leaves each byte
`b < 256` unchanged, so the two agree on byte lists. -/
def addCarry : List Nat → Nat → List Nat
  | [], _ => []
  | b :: bs, carry => (b + carry) % 256 :: addCarry bs ((b + carry) / 256)

/-- `encI128`: write the 16-byte little-endian magnitude of `abs(value)`
(two `writeBigUInt64LE` limbs; the high limb throws when `abs >> 64`
exceeds a u64) and, for negative input, invert every byte
(`~b & 0xff = 255 - b` for a byte) and add 1 with carry propagation. -/
def encI128 (value : Int) : Option (List Nat) :=
  let isNeg := value < 0
  let abs : Nat := value.natAbs
  if abs >>> 64 ≥ 2 ^ 64 then none
  else
    let base := natLE (abs &&& (2 ^ 64 - 1)) 8 ++ natLE (abs >>> 64) 8
    some (if isNeg then addCarry (base.map fun b => 255 - b) 1 else base)

/-- The instruction payload built by `buildDepositTransaction`:
`Buffer.concat([encU8(IX_TAG.DepositCollateral), encU16(userIdx),
encU64(amount)])`. -/
def depositInstructionData (userIdx : Nat) (amount : Int) : Option (List Nat) := do
  let tag ← encU8 IX_TAG_DepositCollateral
  let idx ← encU16 userIdx
  let amt ← encU64 amount
  return tag ++ idx ++ amt

/-! ### Arithmetic facts about the byte-level codec -/

theorem length_natLE (x n : Nat) : (natLE x n).length = n := by
  induction n generalizing x with
  | zero => rfl
  | succ n ih => simp [natLE, ih]

theorem leNat_natLE (x n : Nat) : leNat (natLE x n) = x % 256 ^ n := by
  induction n generalizing x with
  | zero => simp [natLE, leNat, Nat.mod_one]
  | succ n ih =>
    simp only [natLE, leNat, ih]
    rw [Nat.pow_succ, Nat.mul_comm (256 ^ n) 256, Nat.mod_mul]

theorem natLE_split (x m n : Nat) :
    natLE x (m + n) = natLE x m ++ natLE (x / 256 ^ m) n := by
  induction m generalizing x with
  | zero => simp [natLE]
  | succ m ih =>
    rw [Nat.succ_add]
    simp only [natLE, ih, List.cons_append, Nat.div_div_eq_div_mul]
    rw [Nat.pow_succ, Nat.mul_comm (256 ^ m) 256]

theorem getD_natLE (x n i : Nat) (h : i < n) :
    (natLE x n).getD i 0 = x / 256 ^ i % 256 := by
  induction n generalizing x i with
  | zero => omega
  | succ n ih =>
    cases i with
    | zero => simp [natLE]
    | succ i =>
      simp only [natLE, List.getD_cons_succ]
      rw [ih _ _ (by omega), Nat.div_div_eq_div_mul, Nat.pow_succ,
        Nat.mul_comm (256 ^ i) 256]

theorem map_inv_natLE (x n : Nat) (h : x < 256 ^ n) :
    (natLE x n).map (fun b => 255 - b) = natLE (256 ^ n - 1 - x) n := by
  induction n generalizing x with
  | zero => simp [natLE]
  | succ n ih =>
    have h256 : 256 ^ (n + 1) = 256 ^ n * 256 := Nat.pow_succ ..
    have hq : x / 256 < 256 ^ n := by
      rw [Nat.div_lt_iff_lt_mul (by omega)]
      omega
    have hdm := Nat.div_add_mod x 256
    have hr : x % 256 < 256 := Nat.mod_lt _ (by omega)
    have key : 256 ^ (n + 1) - 1 - x
        = (256 ^ n - 1 - x / 256) * 256 + (255 - x % 256) := by omega
    have e1 : (256 * (256 ^ n - 1 - x / 256) + (255 - x % 256)) % 256
        = 255 - x % 256 := by
      rw [Nat.mul_add_mod]
      exact Nat.mod_eq_of_lt (by omega)
    have e2 : (256 * (256 ^ n - 1 - x / 256) + (255 - x % 256)) / 256
        = 256 ^ n - 1 - x / 256 := by
      have e0 : (255 - x % 256) / 256 = 0 := Nat.div_eq_of_lt (by omega)
      rw [Nat.mul_add_div (show 0 < 256 by omega), e0, Nat.add_zero]
    simp only [natLE, List.map_cons, ih _ hq]
    rw [key, Nat.mul_comm (256 ^ n - 1 - x / 256) 256, e1, e2]

theorem addCarry_natLE (x c n : Nat) : addCarry (natLE x n) c = natLE (x + c) n := by
  induction n generalizing x c with
  | zero => rfl
  | succ n ih =>
    simp only [natLE, addCarry, Nat.mod_add_mod]
    congr 1
    rw [ih]
    congr 1
    have h1 := Nat.div_add_mod x 256
    have h2 := Nat.div_add_mod (x % 256 + c) 256
    have h3 := Nat.div_add_mod (x + c) 256
    have h4 : x % 256 < 256 := Nat.mod_lt _ (by omega)
    have h5 : (x % 256 + c) % 256 < 256 := Nat.mod_lt _ (by omega)
    have h6 : (x + c) % 256 < 256 := Nat.mod_lt _ (by omega)
    omega

theorem natLE_mod (x n : Nat) : natLE (x % 256 ^ n) n = natLE x n := by
  induction n generalizing x with
  | zero => rfl
  | succ n ih =>
    simp only [natLE]
    have d1 : x % 256 ^ (n + 1) % 256 = x % 256 :=
      Nat.mod_mod_of_dvd x (dvd_pow_self 256 (by omega))
    have d2 : x % 256 ^ (n + 1) / 256 = x / 256 % 256 ^ n := by
      rw [Nat.pow_succ, Nat.mul_comm (256 ^ n) 256]
      exact Nat.mod_mul_right_div_self x 256 (256 ^ n)
    rw [d1, d2, ih]

/-- For a byte `b < 256`, the source's sign test `b & 0x80 !== 0` holds
exactly when `128 ≤ b`. -/
theorem and128_ne (b : Nat) (hb : b < 256) : (b &&& 128 ≠ 0) ↔ 128 ≤ b := by
  have h : ∀ c : Fin 256, ((c.val &&& 128 ≠ 0) ↔ 128 ≤ c.val) := by decide
  exact h ⟨b, hb⟩

/-- What `encI128` writes, as a single 16-byte little-endian number: the
two's-complement image `v mod 2^128`. -/
theorem encI128_eq (v : Int) (h : v.natAbs ≤ 2 ^ 127) :
    encI128 v = some (natLE (if v < 0 then 2 ^ 128 - v.natAbs else v.natAbs) 16) := by
  unfold encI128
  have hshift : v.natAbs >>> 64 = v.natAbs / 2 ^ 64 := Nat.shiftRight_eq_div_pow ..
  have hlt : ¬ (v.natAbs >>> 64 ≥ 2 ^ 64) := by
    rw [hshift]
    have : v.natAbs / 2 ^ 64 ≤ 2 ^ 127 / 2 ^ 64 := Nat.div_le_div_right h
    norm_num at this ⊢
    omega
  rw [if_neg hlt]
  have hmask : v.natAbs &&& (2 ^ 64 - 1) = v.natAbs % 2 ^ 64 :=
    Nat.and_pow_two_sub_one_eq_mod v.natAbs 64
  have hbase : natLE (v.natAbs &&& (2 ^ 64 - 1)) 8 ++ natLE (v.natAbs >>> 64) 8
      = natLE v.natAbs 16 := by
    rw [hmask, hshift, show (16 : Nat) = 8 + 8 from rfl, natLE_split]
    have h88 : (256 : Nat) ^ 8 = 2 ^ 64 := by norm_num
    rw [h88, ← natLE_mod v.natAbs 8, h88]
  rw [hbase]
  by_cases hv : v < 0
  · simp only [if_pos hv]
    have habs : v.natAbs < 256 ^ 16 := by
      have : (256 : Nat) ^ 16 = 2 ^ 128 := by norm_num
      rw [this]
      have : (2 : Nat) ^ 127 < 2 ^ 128 := by norm_num
      omega
    rw [map_inv_natLE _ _ habs, addCarry_natLE]
    congr 2
    have : (256 : Nat) ^ 16 = 2 ^ 128 := by norm_num
    omega
  · simp [hv]

/-- What `readI128` returns on a 16-byte little-endian encoding of
`y < 2^128`: `y` itself, shifted down by `2^128` when the top bit is set. -/
theorem readI128_natLE (y : Nat) (hy : y < 2 ^ 128) :
    readI128 (natLE y 16) 0 = if 2 ^ 127 ≤ y then (y : Int) - 2 ^ 128 else (y : Int) := by
  have hlen : (natLE y 16).length = 16 := length_natLE ..
  have hslice : slice (natLE y 16) 0 16 = natLE y 16 := by
    unfold slice
    rw [List.drop_zero, List.take_of_length_le (by rw [hlen])]
  have hle : leNat (natLE y 16) = y := by
    rw [leNat_natLE]
    have : (256 : Nat) ^ 16 = 2 ^ 128 := by norm_num
    omega
  have hb : (natLE y 16).getD 15 0 = y / 256 ^ 15 % 256 := getD_natLE y 16 15 (by omega)
  have hbyte : y / 256 ^ 15 % 256 = y / 2 ^ 120 := by
    have h1 : (256 : Nat) ^ 15 = 2 ^ 120 := by norm_num
    have h2 : y / 2 ^ 120 < 256 := by
      rw [Nat.div_lt_iff_lt_mul (by norm_num)]
      calc y < 2 ^ 128 := hy
        _ = 256 * 2 ^ 120 := by norm_num
        _ ≤ 2 ^ 120 * 256 := by omega

    rw [h1, Nat.mod_eq_of_lt h2]
  have hsign : ((natLE y 16).getD 15 0 &&& 128 ≠ 0) ↔ 2 ^ 127 ≤ y := by
    rw [hb, hbyte, and128_ne _ (by
      rw [Nat.div_lt_iff_lt_mul (by norm_num)]
      calc y < 2 ^ 128 := hy
        _ = 2 ^ 120 * 256 := by norm_num)]
    rw [Nat.le_div_iff_mul_le (by norm_num)]
    constructor
    · intro hx; calc (2:Nat) ^ 127 = 128 * 2 ^ 120 := by norm_num
        _ ≤ y := hx
    · intro hx; calc (128 : Nat) * 2 ^ 120 = 2 ^ 127 := by norm_num
        _ ≤ y := hx
  unfold readI128
  rw [if_neg (by omega)]
  simp only [hslice, hle]
  by_cases hc : 2 ^ 127 ≤ y
  · rw [if_pos (hsign.mpr hc), if_pos hc]
  · rw [if_neg (fun hx => hc (hsign.mp hx)), if_neg hc]

/-- C1: for every signed 128-bit value `v` (including `0`, `-1`, `i128::MAX`
and `i128::MIN`), the 16-byte buffer written by `encI128` exists (no range
error) and `readI128` at offset 0 of that buffer returns exactly `v`. -/
theorem c1_encI128_readI128_roundtrip (v : Int)
    (h1 : -(2 ^ 127) ≤ v) (h2 : v ≤ 2 ^ 127 - 1) :
    ∃ buf, encI128 v = some buf ∧ buf.length = 16 ∧ readI128 buf 0 = v := by
  have habs : v.natAbs ≤ 2 ^ 127 := by omega
  refine ⟨_, encI128_eq v habs, length_natLE .., ?_⟩
  by_cases hv : v < 0
  · rw [if_pos hv, readI128_natLE _ (by omega), if_pos (by omega)]
    omega
  · rw [if_neg hv, readI128_natLE _ (by omega), if_neg (by omega)]
    omega

/-- Witness for C1 at the extreme point `v = i128::MIN = -2^127`. -/
theorem c1_roundtrip_witness :
    -(2 ^ 127) ≤ (-(2 ^ 127) : Int) ∧ (-(2 ^ 127) : Int) ≤ 2 ^ 127 - 1 ∧
    ∃ buf, encI128 (-(2 ^ 127)) = some buf ∧ buf.length = 16 ∧
      readI128 buf 0 = -(2 ^ 127) :=
  ⟨by norm_num, by norm_num,
    c1_encI128_readI128_roundtrip (-(2 ^ 127)) (by norm_num) (by norm_num)⟩

/-- C2: on a buffer of length at least 8, the slab decode fails with the
magic-mismatch error exactly when the first 8 bytes, read as a
little-endian u64, differ from `0x504552434F4C4154`; the `Except.error`
result carries no partial decoded state. -/
theorem c2_magic_gate (data : List Nat) (hlen : 8 ≤ data.length) :
    decodeSlab data = .error .magicMismatch ↔
      leNat (slice data 0 8) ≠ expectedMagic := by
  unfold decodeSlab
  rcases eq_or_ne (leNat (slice data 0 8)) expectedMagic with hmag | hmag
  · simp only [if_neg (show ¬data.length < 8 by omega),
      if_neg (show ¬(leNat (slice data 0 8) ≠ expectedMagic) from fun h => h hmag)]
    constructor
    · intro h
      split at h
      · simp at h
      · split at h
        · simp at h
        · simp at h
    · intro h
      exact absurd hmag h
  · simp only [if_neg (show ¬data.length < 8 by omega), if_pos hmag]
    exact iff_of_true (by simp) hmag

/-- Witness for C2: an 8-byte all-zero buffer fails with the magic error. -/
theorem c2_magic_gate_witness :
    8 ≤ ([0, 0, 0, 0, 0, 0, 0, 0] : List Nat).length ∧
    decodeSlab [0, 0, 0, 0, 0, 0, 0, 0] = .error .magicMismatch :=
  ⟨by decide, (c2_magic_gate [0, 0, 0, 0, 0, 0, 0, 0] (by decide)).mpr (by decide)⟩

/-- A 240-byte record slice whose stored `accountId` field is exactly
1,000,000 and whose other bytes are zero. -/
def recordAtCeiling : List Nat := natLE 1000000 8 ++ List.replicate 232 0

/-- C4 counterexample: on a 240-byte record whose stored `accountId` is
exactly 1,000,000 the parser returns a record, not `null` — the sanity
check rejects only values strictly above 1,000,000, so "at or above" and
"a stored accountId equal to 1,000,000 is rejected" are false. -/
theorem c4_ceiling_counterexample :
    recordAtCeiling.length = 240 ∧
    readU64 recordAtCeiling 0 = 1000000 ∧
    parseAccount recordAtCeiling 0 ≠ none := by
  refine ⟨by decide, by decide, ?_⟩
  decide

/-- C4 amended: on every 240-byte record slice, `parseAccount` returns
`null` exactly when the stored `accountId` at offset 0 is strictly greater
than 1,000,000; stored values of 1,000,000 and 999,999 are both
accepted. -/
theorem c4_sanity_ceiling (data : List Nat) (idx : Nat) (h : data.length = 240) :
    parseAccount data idx = none ↔ 1000000 < readU64 data 0 := by
  unfold parseAccount
  by_cases hgt : readU64 data ACCT_ACCOUNT_ID_OFF > 1000000
  · simp only [if_pos hgt]
    simpa [ACCT_ACCOUNT_ID_OFF] using hgt
  · simp only [if_neg hgt]
    simp only [ACCT_ACCOUNT_ID_OFF] at hgt
    simp [hgt]

/-- Witness for C4 at a record with stored accountId 999,999 (accepted). -/
theorem c4_sanity_ceiling_witness :
    (natLE 999999 8 ++ List.replicate 232 0).length = 240 ∧
    (parseAccount (natLE 999999 8 ++ List.replicate 232 0) 3 = none ↔
      1000000 < readU64 (natLE 999999 8 ++ List.replicate 232 0) 0) :=
  ⟨by decide, c4_sanity_ceiling (natLE 999999 8 ++ List.replicate 232 0) 3 (by decide)⟩

/-- C5: whenever `parseAccount` succeeds, the returned record's
`accountId` is the caller-supplied bitmap slot index — regardless of the
stored accountId field — and every other field is decoded from the record
bytes at its documented offset. -/
theorem c5_index_precedence (data : List Nat) (idx : Nat) (a : AccountData)
    (h : parseAccount data idx = some a) :
    a.accountId = idx ∧
    a.capital = readU128 data 8 ∧
    a.kind = readU8 data 24 ∧
    a.pnl = readI128 data 32 ∧
    a.reservedPnl = readU64 data 48 ∧
    a.warmupStartedAtSlot = readU64 data 56 ∧
    a.warmupSlopePerStep = readU128 data 64 ∧
    a.positionSize = readI128 data 80 ∧
    a.entryPrice = readU64 data 96 ∧
    a.fundingIndex = readI128 data 104 ∧
    a.matcherProgram = readPubkey data 120 ∧
    a.matcherContext = readPubkey data 152 ∧
    a.owner = readPubkey data 184 ∧
    a.feeCredits = readI128 data 216 ∧
    a.lastFeeSlot = readU64 data 232 := by
  simp only [parseAccount] at h
  split at h
  · exact absurd h (by simp)
  · rw [Option.some_inj] at h
    subst h
    refine ⟨rfl, ?_, ?_, ?_, ?_, ?_, ?_, ?_, ?_, ?_, ?_, ?_, ?_, ?_, ?_⟩ <;> rfl

/-- The record decoded from a 240-byte slice of zeros at slot 0. -/
def zeroAccount : AccountData where
  accountId := 0
  capital := 0
  kind := 0
  pnl := 0
  reservedPnl := 0
  warmupStartedAtSlot := 0
  warmupSlopePerStep := 0
  positionSize := 0
  entryPrice := 0
  fundingIndex := 0
  matcherProgram := List.replicate 32 0
  matcherContext := List.replicate 32 0
  owner := List.replicate 32 0
  feeCredits := 0
  lastFeeSlot := 0

/-- Witness for C5 on the all-zero 240-byte record at slot index 0. -/
theorem c5_index_precedence_witness :
    parseAccount (List.replicate 240 0) 0 = some zeroAccount ∧
    (zeroAccount.accountId = 0 ∧
      zeroAccount.capital = readU128 (List.replicate 240 0) 8 ∧
      zeroAccount.kind = readU8 (List.replicate 240 0) 24 ∧
      zeroAccount.pnl = readI128 (List.replicate 240 0) 32 ∧
      zeroAccount.reservedPnl = readU64 (List.replicate 240 0) 48 ∧
      zeroAccount.warmupStartedAtSlot = readU64 (List.replicate 240 0) 56 ∧
      zeroAccount.warmupSlopePerStep = readU128 (List.replicate 240 0) 64 ∧
      zeroAccount.positionSize = readI128 (List.replicate 240 0) 80 ∧
      zeroAccount.entryPrice = readU64 (List.replicate 240 0) 96 ∧
      zeroAccount.fundingIndex = readI128 (List.replicate 240 0) 104 ∧
      zeroAccount.matcherProgram = readPubkey (List.replicate 240 0) 120 ∧
      zeroAccount.matcherContext = readPubkey (List.replicate 240 0) 152 ∧
      zeroAccount.owner = readPubkey (List.replicate 240 0) 184 ∧
      zeroAccount.feeCredits = readI128 (List.replicate 240 0) 216 ∧
      zeroAccount.lastFeeSlot = readU64 (List.replicate 240 0) 232) :=
  ⟨by decide, c5_index_precedence (List.replicate 240 0) 0 zeroAccount (by decide)⟩

/-! ### Slice and reader toolkit -/

theorem length_slice (data : List Nat) (off n : Nat) :
    (slice data off n).length = min n (data.length - off) := by
  unfold slice
  rw [List.length_take, List.length_drop]

theorem slice_append_right (A B : List Nat) (off n : Nat) (h : A.length ≤ off) :
    slice (A ++ B) off n = slice B (off - A.length) n := by
  unfold slice
  have e : off = A.length + (off - A.length) := by omega
  rw [e, List.drop_append, Nat.add_sub_cancel_left]

theorem slice_append_left (A B : List Nat) (off n : Nat) (h : off + n ≤ A.length) :
    slice (A ++ B) off n = slice A off n := by
  unfold slice
  rw [List.drop_append_of_le_length (by omega),
    List.take_append_of_le_length (by rw [List.length_drop]; omega)]

theorem slice_slice (data : List Nat) (o1 n1 o2 n2 : Nat) (h : o2 + n2 ≤ n1) :
    slice (slice data o1 n1) o2 n2 = slice data (o1 + o2) n2 := by
  unfold slice
  rw [List.drop_take, List.drop_drop, List.take_take]
  have e : min n2 (n1 - o2) = n2 := by omega
  rw [e]

theorem slice_split (data : List Nat) (off m n : Nat) :
    slice data off (m + n) = slice data off m ++ slice data (off + m) n := by
  unfold slice
  rw [List.take_add, List.drop_drop]

theorem slice_drop (data : List Nat) (k off n : Nat) :
    slice (data.drop k) off n = slice data (k + off) n := by
  unfold slice
  rw [List.drop_drop]

theorem leNat_append (xs ys : List Nat) :
    leNat (xs ++ ys) = leNat xs + 256 ^ xs.length * leNat ys := by
  induction xs with
  | nil => simp [leNat]
  | cons b bs ih =>
    simp only [List.cons_append, List.append_eq, leNat, ih, List.length_cons]
    ring

theorem leNat_replicate_zero (n : Nat) : leNat (List.replicate n 0) = 0 := by
  induction n with
  | zero => rfl
  | succ n ih => simp [List.replicate_succ, leNat, ih]

theorem slice_replicate (k c off n : Nat) :
    slice (List.replicate k c) off n = List.replicate (min n (k - off)) c := by
  unfold slice
  rw [List.drop_replicate, List.take_replicate]

/-- `readU64`'s two-u32 combination equals the little-endian value of the
8-byte slice (when in bounds). -/
theorem readU64_eq_leNat (data : List Nat) (off : Nat) (h : off + 8 ≤ data.length) :
    readU64 data off = leNat (slice data off 8) := by
  unfold readU64
  rw [if_neg (by omega)]
  rw [show (8 : Nat) = 4 + 4 from rfl, slice_split, leNat_append,
    length_slice]
  have : min 4 (data.length - off) = 4 := by omega
  rw [this]
  norm_num
  ring

/-- `readU128`'s two-u64 combination equals the little-endian value of the
16-byte slice (when in bounds). -/
theorem readU128_eq_leNat (data : List Nat) (off : Nat) (h : off + 16 ≤ data.length) :
    readU128 data off = leNat (slice data off 16) := by
  unfold readU128
  rw [if_neg (by omega), readU64_eq_leNat data off (by omega),
    readU64_eq_leNat data (off + 8) (by omega)]
  rw [show (16 : Nat) = 8 + 8 from rfl, slice_split, leNat_append, length_slice]
  have : min 8 (data.length - off) = 8 := by omega
  rw [this]
  norm_num
  ring

theorem parseAccount_accountId (data : List Nat) (idx : Nat) (a : AccountData)
    (h : parseAccount data idx = some a) : a.accountId = idx := by
  simp only [parseAccount] at h
  split at h
  · exact absurd h (by simp)
  · rw [Option.some_inj] at h
    subst h
    rfl

theorem parseAccount_fundingIdx (data : List Nat) (idx : Nat) (a : AccountData)
    (h : parseAccount data idx = some a) :
    a.fundingIndex = readI128 data ACCT_FUNDING_INDEX_OFF := by
  simp only [parseAccount] at h
  split at h
  · exact absurd h (by simp)
  · rw [Option.some_inj] at h
    subst h
    rfl

/-- `parseAccount` succeeds exactly on stored ids up to the ceiling. -/
theorem parseAccount_isSome (data : List Nat) (idx : Nat)
    (h : ¬ readU64 data ACCT_ACCOUNT_ID_OFF > 1000000) :
    ∃ a, parseAccount data idx = some a := by
  simp only [parseAccount, if_neg h]
  exact ⟨_, rfl⟩

/-- C7: the `DepositCollateral` payload built by `buildDepositTransaction`
is exactly 11 bytes — one tag byte equal to 3, then the account index as a
little-endian u16 at offset 1, then the amount as a little-endian u64 at
offset 3, with no separators. -/
theorem c7_deposit_payload (userIdx : Nat) (amount : Int)
    (h1 : userIdx < 2 ^ 16) (h2 : 0 ≤ amount) (h3 : amount < 2 ^ 64) :
    ∃ d, depositInstructionData userIdx amount = some d ∧
      d = 3 :: (natLE userIdx 2 ++ natLE amount.toNat 8) ∧
      d.length = 11 ∧ d.getD 0 0 = 3 ∧
      readU16 d 1 = userIdx ∧ readU64 d 3 = amount.toNat := by
  have e : depositInstructionData userIdx amount
      = some (3 :: (natLE userIdx 2 ++ natLE amount.toNat 8)) := by
    unfold depositInstructionData encU8 encU16 encU64 IX_TAG_DepositCollateral
    rw [if_pos (by omega), if_pos h1, if_pos (by exact ⟨h2, h3⟩)]
    rfl
  refine ⟨_, e, rfl, ?_, rfl, ?_, ?_⟩
  · simp [length_natLE]
  · unfold readU16
    have hlen : (3 :: (natLE userIdx 2 ++ natLE amount.toNat 8)).length = 11 := by
      simp [length_natLE]
    rw [if_neg (by omega)]
    have hs : slice (3 :: (natLE userIdx 2 ++ natLE amount.toNat 8)) 1 2
        = natLE userIdx 2 := by
      unfold slice
      rw [List.drop_succ_cons, List.drop_zero,
        List.take_append_of_le_length (by rw [length_natLE]),
        List.take_of_length_le (by rw [length_natLE])]
    rw [hs, leNat_natLE, Nat.mod_eq_of_lt (by have := h1; norm_num at this ⊢; omega)]
  · have hlen : (3 :: (natLE userIdx 2 ++ natLE amount.toNat 8)).length = 11 := by
      simp [length_natLE]
    rw [readU64_eq_leNat _ _ (by omega)]
    have hs : slice (3 :: (natLE userIdx 2 ++ natLE amount.toNat 8)) 3 8
        = natLE amount.toNat 8 := by
      unfold slice
      rw [List.drop_succ_cons, List.drop_append_of_le_length (by rw [length_natLE])]
      have hd : List.drop 2 (natLE userIdx 2) = [] := by
        rw [List.drop_eq_nil_iff_le, length_natLE]
      rw [hd, List.nil_append, List.take_of_length_le (by rw [length_natLE])]
    rw [hs, leNat_natLE, Nat.mod_eq_of_lt (by have := h3; norm_num at this ⊢; omega)]

/-- Witness for C7 at index 7, amount 5000. -/
theorem c7_deposit_payload_witness :
    (7 : Nat) < 2 ^ 16 ∧ (0 : Int) ≤ 5000 ∧ (5000 : Int) < 2 ^ 64 ∧
    ∃ d, depositInstructionData 7 5000 = some d ∧
      d = 3 :: (natLE 7 2 ++ natLE (5000 : Int).toNat 8) ∧
      d.length = 11 ∧ d.getD 0 0 = 3 ∧
      readU16 d 1 = 7 ∧ readU64 d 3 = (5000 : Int).toNat :=
  ⟨by norm_num, by norm_num, by norm_num,
    c7_deposit_payload 7 5000 (by norm_num) (by norm_num) (by norm_num)⟩

/-! ### Unfolding equations for the bitmap scan -/

theorem scanBits_zero (data : List Nat) (numUsed word wordIdx bitIdx parsed : Nat) :
    scanBits data numUsed word wordIdx bitIdx 0 parsed = ([], parsed) := rfl

theorem scanBits_succ (data : List Nat) (numUsed word wordIdx bitIdx fuel parsed : Nat) :
    scanBits data numUsed word wordIdx bitIdx (fuel + 1) parsed =
      if parsed ≥ numUsed then ([], parsed)
      else if word.testBit bitIdx then
        if wordIdx * 64 + bitIdx ≥ MAX_ACCOUNTS then ([], parsed)
        else if ENGINE_OFF + ENGINE_ACCOUNTS_OFF + (wordIdx * 64 + bitIdx) * ACCOUNT_SIZE
            + ACCOUNT_SIZE > data.length then ([], parsed)
        else
          match parseAccount
              (slice data (ENGINE_OFF + ENGINE_ACCOUNTS_OFF + (wordIdx * 64 + bitIdx) * ACCOUNT_SIZE)
                ACCOUNT_SIZE) (wordIdx * 64 + bitIdx) with
          | some a =>
            ((a :: (scanBits data numUsed word wordIdx (bitIdx + 1) fuel (parsed + 1)).1),
              (scanBits data numUsed word wordIdx (bitIdx + 1) fuel (parsed + 1)).2)
          | none => scanBits data numUsed word wordIdx (bitIdx + 1) fuel parsed
      else scanBits data numUsed word wordIdx (bitIdx + 1) fuel parsed := rfl

theorem scanWords_zero (data : List Nat) (numUsed wordIdx parsed : Nat) :
    scanWords data numUsed wordIdx 0 parsed = ([], parsed) := rfl

theorem scanWords_succ (data : List Nat) (numUsed wordIdx fuel parsed : Nat) :
    scanWords data numUsed wordIdx (fuel + 1) parsed =
      if parsed ≥ numUsed then ([], parsed)
      else if ENGINE_OFF + ENGINE_BITMAP_OFF + wordIdx * 8 + 8 > data.length then ([], parsed)
      else if leNat (slice data (ENGINE_OFF + ENGINE_BITMAP_OFF + wordIdx * 8) 8) = 0 then
        scanWords data numUsed (wordIdx + 1) fuel parsed
      else
        ((scanBits data numUsed (leNat (slice data (ENGINE_OFF + ENGINE_BITMAP_OFF + wordIdx * 8) 8))
            wordIdx 0 64 parsed).1 ++
          (scanWords data numUsed (wordIdx + 1) fuel
            (scanBits data numUsed (leNat (slice data (ENGINE_OFF + ENGINE_BITMAP_OFF + wordIdx * 8) 8))
              wordIdx 0 64 parsed).2).1,
         (scanWords data numUsed (wordIdx + 1) fuel
            (scanBits data numUsed (leNat (slice data (ENGINE_OFF + ENGINE_BITMAP_OFF + wordIdx * 8) 8))
              wordIdx 0 64 parsed).2).2) := rfl

/-! ### Invariants of the bitmap scan -/

/-- Invariant of the inner bit loop: the parsed count stays at most
`numUsed` and advances by the number of emitted records; emitted records
are in strictly ascending slot order, carry slot ids in
`[wordIdx*64 + bitIdx, wordIdx*64 + bitIdx + fuel)`, and lie entirely
within the buffer. -/
theorem scanBits_inv (data : List Nat) (numUsed word wordIdx : Nat) (fuel : Nat) :
    ∀ bitIdx parsed, parsed ≤ numUsed →
      (scanBits data numUsed word wordIdx bitIdx fuel parsed).2 ≤ numUsed ∧
      (scanBits data numUsed word wordIdx bitIdx fuel parsed).2
        = parsed + (scanBits data numUsed word wordIdx bitIdx fuel parsed).1.length ∧
      (scanBits data numUsed word wordIdx bitIdx fuel parsed).1.Pairwise
        (fun a b => a.accountId < b.accountId) ∧
      ∀ a ∈ (scanBits data numUsed word wordIdx bitIdx fuel parsed).1,
        (wordIdx * 64 + bitIdx ≤ a.accountId ∧ a.accountId < wordIdx * 64 + bitIdx + fuel) ∧
        ENGINE_OFF + ENGINE_ACCOUNTS_OFF + a.accountId * ACCOUNT_SIZE + ACCOUNT_SIZE
          ≤ data.length := by
  induction fuel with
  | zero =>
    intro bitIdx parsed hp
    rw [scanBits_zero]
    exact ⟨hp, by simp, by simp, by simp⟩
  | succ fuel ih =>
    intro bitIdx parsed hp
    rw [scanBits_succ]
    by_cases h1 : parsed ≥ numUsed
    · rw [if_pos h1]
      exact ⟨hp, by simp, by simp, by simp⟩
    · rw [if_neg h1]
      by_cases h2 : word.testBit bitIdx
      · rw [if_pos h2]
        by_cases h3 : wordIdx * 64 + bitIdx ≥ MAX_ACCOUNTS
        · rw [if_pos h3]
          exact ⟨hp, by simp, by simp, by simp⟩
        · rw [if_neg h3]
          by_cases h4 : ENGINE_OFF + ENGINE_ACCOUNTS_OFF
              + (wordIdx * 64 + bitIdx) * ACCOUNT_SIZE + ACCOUNT_SIZE > data.length
          · rw [if_pos h4]
            exact ⟨hp, by simp, by simp, by simp⟩
          · rw [if_neg h4]
            rcases hpa : parseAccount
                (slice data (ENGINE_OFF + ENGINE_ACCOUNTS_OFF
                  + (wordIdx * 64 + bitIdx) * ACCOUNT_SIZE) ACCOUNT_SIZE)
                (wordIdx * 64 + bitIdx) with _ | a
            · simp only [hpa]
              have h5 := ih (bitIdx + 1) parsed hp
              refine ⟨h5.1, h5.2.1, h5.2.2.1, ?_⟩
              intro b hb
              have h6 := h5.2.2.2 b hb
              exact ⟨⟨by omega, by omega⟩, h6.2⟩
            · simp only [hpa]
              have h5 := ih (bitIdx + 1) (parsed + 1) (by omega)
              have haid : a.accountId = wordIdx * 64 + bitIdx :=
                parseAccount_accountId _ _ _ hpa
              refine ⟨h5.1, ?_, ?_, ?_⟩
              · simp only [List.length_cons]
                have h6 := h5.2.1
                omega
              · refine List.Pairwise.cons ?_ h5.2.2.1
                intro b hb
                have h6 := (h5.2.2.2 b hb).1
                omega
              · intro b hb
                rcases List.mem_cons.mp hb with rfl | hb
                · refine ⟨⟨by omega, by omega⟩, ?_⟩
                  rw [haid]
                  omega
                · have h6 := h5.2.2.2 b hb
                  exact ⟨⟨by omega, by omega⟩, h6.2⟩
      · rw [if_neg h2]
        have h5 := ih (bitIdx + 1) parsed hp
        refine ⟨h5.1, h5.2.1, h5.2.2.1, ?_⟩
        intro b hb
        have h6 := h5.2.2.2 b hb
        exact ⟨⟨by omega, by omega⟩, h6.2⟩

/-- Invariant of the outer word loop: parsed count stays at most `numUsed`
and advances by the number of emitted records; records come out in
strictly ascending slot order with ids at least `wordIdx*64`, all entirely
within the buffer. -/
theorem scanWords_inv (data : List Nat) (numUsed : Nat) (fuel : Nat) :
    ∀ wordIdx parsed, parsed ≤ numUsed →
      (scanWords data numUsed wordIdx fuel parsed).2 ≤ numUsed ∧
      (scanWords data numUsed wordIdx fuel parsed).2
        = parsed + (scanWords data numUsed wordIdx fuel parsed).1.length ∧
      (scanWords data numUsed wordIdx fuel parsed).1.Pairwise
        (fun a b => a.accountId < b.accountId) ∧
      ∀ a ∈ (scanWords data numUsed wordIdx fuel parsed).1,
        wordIdx * 64 ≤ a.accountId ∧
        ENGINE_OFF + ENGINE_ACCOUNTS_OFF + a.accountId * ACCOUNT_SIZE + ACCOUNT_SIZE
          ≤ data.length := by
  induction fuel with
  | zero =>
    intro wordIdx parsed hp
    rw [scanWords_zero]
    exact ⟨hp, by simp, by simp, by simp⟩
  | succ fuel ih =>
    intro wordIdx parsed hp
    rw [scanWords_succ]
    by_cases h1 : parsed ≥ numUsed
    · rw [if_pos h1]
      exact ⟨hp, by simp, by simp, by simp⟩
    · rw [if_neg h1]
      by_cases h2 : ENGINE_OFF + ENGINE_BITMAP_OFF + wordIdx * 8 + 8 > data.length
      · rw [if_pos h2]
        exact ⟨hp, by simp, by simp, by simp⟩
      · rw [if_neg h2]
        by_cases h3 : leNat (slice data (ENGINE_OFF + ENGINE_BITMAP_OFF + wordIdx * 8) 8) = 0
        · rw [if_pos h3]
          have h5 := ih (wordIdx + 1) parsed hp
          refine ⟨h5.1, h5.2.1, h5.2.2.1, ?_⟩
          intro b hb
          have h6 := h5.2.2.2 b hb
          exact ⟨by omega, h6.2⟩
        · rw [if_neg h3]
          have hbits := scanBits_inv data numUsed
            (leNat (slice data (ENGINE_OFF + ENGINE_BITMAP_OFF + wordIdx * 8) 8))
            wordIdx 64 0 parsed hp
          have hrest := ih (wordIdx + 1) _ hbits.1
          refine ⟨hrest.1, ?_, ?_, ?_⟩
          · simp only [List.length_append]
            have h6 := hrest.2.1
            have h7 := hbits.2.1
            omega
          · refine (List.pairwise_append).mpr ⟨hbits.2.2.1, hrest.2.2.1, ?_⟩
            intro b hb c hc
            have h6 := (hbits.2.2.2 b hb).1
            have h7 := (hrest.2.2.2 c hc).1
            omega
          · intro b hb
            rcases List.mem_append.mp hb with hb | hb
            · have h6 := hbits.2.2.2 b hb
              exact ⟨by omega, h6.2⟩
            · have h6 := hrest.2.2.2 b hb
              exact ⟨by omega, h6.2⟩

/-- On a successful decode, the returned fields are the scan result, its
length, and the u128 (unsigned) funding-index read. -/
theorem decodeSlab_ok_fields (data : List Nat) (s : SlabData)
    (h : decodeSlab data = .ok s) :
    s.accounts
      = (scanWords data (readU16 (data.drop ENGINE_OFF) ENGINE_NUM_USED_OFF) 0 BITMAP_WORDS 0).1 ∧
    s.totalAccounts = s.accounts.length ∧
    s.globalFundingIndex
      = (readU128 (data.drop ENGINE_OFF) ENGINE_FUNDING_INDEX_OFF : Int) := by
  simp only [decodeSlab] at h
  split at h
  · exact absurd h (by simp)
  · split at h
    · exact absurd h (by simp)
    · split at h
      · exact absurd h (by simp)
      · split at h
        · exact absurd h (by simp)
        · rw [Except.ok.injEq] at h
          subst h
          exact ⟨rfl, rfl, rfl⟩

/-- When the i128 reader sees a negative value, the u128 reader reports it
shifted up by `2^128`. -/
theorem readU128_of_readI128_neg (data : List Nat) (off : Nat)
    (hneg : readI128 data off < 0) :
    (readU128 data off : Int) = readI128 data off + 2 ^ 128 := by
  have hb : ¬ (off + 16 > data.length) := by
    intro hb
    simp only [readI128, if_pos hb] at hneg
    exact absurd hneg (by norm_num)
  have hU : readU128 data off = leNat (slice data off 16) :=
    readU128_eq_leNat data off (by omega)
  simp only [readI128, if_neg hb] at hneg ⊢
  split at hneg
  case isTrue hmsb =>
    rw [if_pos hmsb, hU]
    omega
  case isFalse hmsb =>
    exact absurd hneg (by omega)

/-- Decoded buffer for witnesses: a valid magic followed by 384 zero
bytes — long enough for the config section, with an empty engine tail. -/
def magicBuf392 : List Nat := [84, 65, 76, 79, 67, 82, 69, 80] ++ List.replicate 384 0

/-- The decode of `magicBuf392`: all scalars zero and no accounts. -/
def emptySlab : SlabData where
  accounts := []
  totalAccounts := 0
  vaultBalance := 0
  vaultAddress := List.replicate 32 0
  vaultAuthorityBump := 0
  unitScale := 0
  insuranceFund := 0
  globalFundingIndex := 0
  lastFundingSlot := 0
  oraclePriceE6 := 0
  totalOpenInterest := 0
  cTot := 0

/-- C8: the records returned by the slab decoder are in strictly ascending
slot-index order (word-major, bit-minor scan order). -/
theorem c8_ascending_slot_order (data : List Nat) (s : SlabData)
    (h : decodeSlab data = .ok s) :
    s.accounts.Pairwise (fun a b => a.accountId < b.accountId) := by
  rw [(decodeSlab_ok_fields data s h).1]
  exact (scanWords_inv data (readU16 (data.drop ENGINE_OFF) ENGINE_NUM_USED_OFF)
    BITMAP_WORDS 0 0 (Nat.zero_le _)).2.2.1

/-- Witness for C8 on a concrete valid buffer with no live slots. -/
theorem c8_ascending_slot_order_witness :
    decodeSlab magicBuf392 = .ok emptySlab ∧
    emptySlab.accounts.Pairwise (fun a b => a.accountId < b.accountId) :=
  ⟨by decide, c8_ascending_slot_order magicBuf392 emptySlab (by decide)⟩

/-- C9: the decoder reads the engine's global funding index with the
unsigned 128-bit reader: the returned value is nonnegative and equals the
u128 read; when the stored two's-complement value is negative the report
is that value plus `2^128`; each account's fundingIndex is instead decoded
with the signed reader. -/
theorem c9_funding_index_unsigned (data : List Nat) (s : SlabData)
    (h : decodeSlab data = .ok s) :
    0 ≤ s.globalFundingIndex ∧
    s.globalFundingIndex
      = (readU128 (data.drop ENGINE_OFF) ENGINE_FUNDING_INDEX_OFF : Int) ∧
    (readI128 (data.drop ENGINE_OFF) ENGINE_FUNDING_INDEX_OFF < 0 →
      s.globalFundingIndex
        = readI128 (data.drop ENGINE_OFF) ENGINE_FUNDING_INDEX_OFF + 2 ^ 128) ∧
    (∀ rec idx a, parseAccount rec idx = some a →
      a.fundingIndex = readI128 rec ACCT_FUNDING_INDEX_OFF) := by
  have hx := (decodeSlab_ok_fields data s h).2.2
  refine ⟨by rw [hx]; exact Int.natCast_nonneg _, hx, ?_,
    fun rec idx a hpa => parseAccount_fundingIdx rec idx a hpa⟩
  intro hneg
  rw [hx, readU128_of_readI128_neg _ _ hneg]

/-- Witness for C9 on a concrete valid buffer. -/
theorem c9_funding_index_unsigned_witness :
    decodeSlab magicBuf392 = .ok emptySlab ∧ 0 ≤ emptySlab.globalFundingIndex :=
  ⟨by decide, (c9_funding_index_unsigned magicBuf392 emptySlab (by decide)).1⟩

/-- C10: the reported totalAccounts is the length of the returned list,
and that length never exceeds the numUsedAccounts u16 read from the engine
header. -/
theorem c10_total_bounded (data : List Nat) (s : SlabData)
    (h : decodeSlab data = .ok s) :
    s.totalAccounts = s.accounts.length ∧
    s.accounts.length ≤ readU16 (data.drop ENGINE_OFF) ENGINE_NUM_USED_OFF := by
  have hx := decodeSlab_ok_fields data s h
  refine ⟨hx.2.1, ?_⟩
  rw [hx.1]
  have h5 := scanWords_inv data (readU16 (data.drop ENGINE_OFF) ENGINE_NUM_USED_OFF)
    BITMAP_WORDS 0 0 (Nat.zero_le _)
  omega

/-- Witness for C10 on a concrete valid buffer. -/
theorem c10_total_bounded_witness :
    decodeSlab magicBuf392 = .ok emptySlab ∧
    (emptySlab.totalAccounts = emptySlab.accounts.length ∧
      emptySlab.accounts.length
        ≤ readU16 (magicBuf392.drop ENGINE_OFF) ENGINE_NUM_USED_OFF) :=
  ⟨by decide, c10_total_bounded magicBuf392 emptySlab (by decide)⟩

/-- C3 amended: decoding a buffer that covers the header and config never
raises (it returns `.ok` whenever the magic matches and the buffer reaches
the engine offset), and every emitted record lies entirely within the
buffer — a record whose 240-byte range crosses the end of the buffer is
skipped (omitted from the output), not reported with zero-valued
fields. -/
theorem c3_truncated_record_skipped (data : List Nat) :
    (leNat (slice data 0 8) = expectedMagic → ENGINE_OFF ≤ data.length →
      ∃ s, decodeSlab data = .ok s) ∧
    (∀ s, decodeSlab data = .ok s → ∀ a ∈ s.accounts,
      ENGINE_OFF + ENGINE_ACCOUNTS_OFF + a.accountId * ACCOUNT_SIZE + ACCOUNT_SIZE
        ≤ data.length) := by
  constructor
  · intro hmag hlen
    simp only [ENGINE_OFF] at hlen
    have hc3 : (List.take 32 (List.drop 32 (slice data CONFIG_OFFSET CONFIG_LEN))).length
        = 32 := by
      rw [List.length_take, List.length_drop, length_slice]
      simp only [CONFIG_OFFSET, CONFIG_LEN]
      omega
    have hc4 : ¬ ((slice data CONFIG_OFFSET CONFIG_LEN).length < CONFIG_LEN) := by
      rw [length_slice]
      simp only [CONFIG_OFFSET, CONFIG_LEN]
      omega
    simp only [decodeSlab, if_neg (show ¬ data.length < 8 by omega),
      if_neg (show ¬ (leNat (slice data 0 8) ≠ expectedMagic) from fun hn => hn hmag),
      hc3, if_neg (show ¬ (32 : Nat) < 32 by omega), if_neg hc4]
    exact ⟨_, rfl⟩
  · intro s h a ha
    rw [(decodeSlab_ok_fields data s h).1] at ha
    exact ((scanWords_inv data (readU16 (data.drop ENGINE_OFF) ENGINE_NUM_USED_OFF)
      BITMAP_WORDS 0 0 (Nat.zero_le _)).2.2.2 a ha).2

/-- C6: a buffer with the valid magic, `oraclePriceE6 = 1234567` stored as
a u64 at config offset 312, bitmap word 0 equal to `0b101`, and
`numUsedAccounts = 2` (with the two live records inside the buffer and
passing the sanity check — the scenario's well-formedness) decodes to
`totalAccounts = 2`, records at slot indices 0 and 2, and
`oraclePriceE6 = 1234567`. -/
theorem c6_concrete_scenario (data : List Nat)
    (hlen : 10248 ≤ data.length)
    (hmag : leNat (slice data 0 8) = expectedMagic)
    (hprice : readU64 (slice data CONFIG_OFFSET CONFIG_LEN) CONFIG_LAST_EFFECTIVE_PRICE_OFF
      = 1234567)
    (hword0 : leNat (slice data (ENGINE_OFF + ENGINE_BITMAP_OFF) 8) = 5)
    (hused : readU16 (data.drop ENGINE_OFF) ENGINE_NUM_USED_OFF = 2)
    (hid0 : ¬ readU64 (slice data (ENGINE_OFF + ENGINE_ACCOUNTS_OFF) ACCOUNT_SIZE) 0
      > 1000000)
    (hid2 : ¬ readU64 (slice data (ENGINE_OFF + ENGINE_ACCOUNTS_OFF + 2 * ACCOUNT_SIZE)
      ACCOUNT_SIZE) 0 > 1000000) :
    ∃ s, decodeSlab data = .ok s ∧ s.totalAccounts = 2 ∧
      s.accounts.map (fun a => a.accountId) = [0, 2] ∧
      s.oraclePriceE6 = 1234567 := by
  -- records at slots 0 and 2 parse successfully
  have hid0' : ¬ readU64
      (slice data (ENGINE_OFF + ENGINE_ACCOUNTS_OFF + (0 * 64 + 0) * ACCOUNT_SIZE)
        ACCOUNT_SIZE) 0 > 1000000 := by simpa using hid0
  have hid2' : ¬ readU64
      (slice data (ENGINE_OFF + ENGINE_ACCOUNTS_OFF + (0 * 64 + 2) * ACCOUNT_SIZE)
        ACCOUNT_SIZE) 0 > 1000000 := by
    simpa [Nat.mul_comm] using hid2
  obtain ⟨a0, ha0⟩ := parseAccount_isSome
    (slice data (ENGINE_OFF + ENGINE_ACCOUNTS_OFF + (0 * 64 + 0) * ACCOUNT_SIZE) ACCOUNT_SIZE)
    (0 * 64 + 0) hid0'
  obtain ⟨a2, ha2⟩ := parseAccount_isSome
    (slice data (ENGINE_OFF + ENGINE_ACCOUNTS_OFF + (0 * 64 + 2) * ACCOUNT_SIZE) ACCOUNT_SIZE)
    (0 * 64 + 2) hid2'
  have ha0id : a0.accountId = 0 := by
    simpa using parseAccount_accountId _ _ _ ha0
  have ha2id : a2.accountId = 2 := by
    simpa using parseAccount_accountId _ _ _ ha2
  -- the bit loop on word 0b101 collects exactly the records at slots 0 and 2
  have hb_stop : scanBits data 2 5 0 3 61 2 = ([], 2) := by
    rw [scanBits_succ, if_pos (show (2 : Nat) ≥ 2 by omega)]
  have hb2 : scanBits data 2 5 0 2 62 1 = ([a2], 2) := by
    rw [scanBits_succ, if_neg (by omega), if_pos (by decide),
      if_neg (show ¬ (0 * 64 + 2 ≥ MAX_ACCOUNTS) by simp only [MAX_ACCOUNTS]; omega),
      if_neg (show ¬ (ENGINE_OFF + ENGINE_ACCOUNTS_OFF + (0 * 64 + 2) * ACCOUNT_SIZE
        + ACCOUNT_SIZE > data.length) by
          simp only [ENGINE_OFF, ENGINE_ACCOUNTS_OFF, ACCOUNT_SIZE]; omega)]
    simp only [ha2]
    rw [hb_stop]
  have hb1 : scanBits data 2 5 0 1 63 1 = ([a2], 2) := by
    rw [scanBits_succ, if_neg (by omega), if_neg (by decide), hb2]
  have hb0 : scanBits data 2 5 0 0 64 0 = ([a0, a2], 2) := by
    rw [scanBits_succ, if_neg (by omega), if_pos (by decide),
      if_neg (show ¬ (0 * 64 + 0 ≥ MAX_ACCOUNTS) by simp only [MAX_ACCOUNTS]; omega),
      if_neg (show ¬ (ENGINE_OFF + ENGINE_ACCOUNTS_OFF + (0 * 64 + 0) * ACCOUNT_SIZE
        + ACCOUNT_SIZE > data.length) by
          simp only [ENGINE_OFF, ENGINE_ACCOUNTS_OFF, ACCOUNT_SIZE]; omega)]
    simp only [ha0]
    rw [hb1]
  have hw0 : leNat (slice data (ENGINE_OFF + ENGINE_BITMAP_OFF + 0 * 8) 8) = 5 := by
    simpa using hword0
  have hwstop : scanWords data 2 1 63 2 = ([], 2) := by
    rw [scanWords_succ, if_pos (show (2 : Nat) ≥ 2 by omega)]
  have hscan : (scanWords data 2 0 64 0).1 = [a0, a2] := by
    rw [scanWords_succ, if_neg (by omega),
      if_neg (show ¬ (ENGINE_OFF + ENGINE_BITMAP_OFF + 0 * 8 + 8 > data.length) by
        simp only [ENGINE_OFF, ENGINE_BITMAP_OFF]; omega),
      if_neg (show ¬ (leNat (slice data (ENGINE_OFF + ENGINE_BITMAP_OFF + 0 * 8) 8) = 0) by
        rw [hw0]; omega),
      hw0, hb0, hwstop]
    simp
  -- the oracle price field is the hypothesised u64
  have hcfglen : (slice data CONFIG_OFFSET CONFIG_LEN).length = 320 := by
    rw [length_slice]
    simp only [CONFIG_OFFSET, CONFIG_LEN]
    omega
  have hpe : leNat (slice (slice data CONFIG_OFFSET CONFIG_LEN)
        (CONFIG_LAST_EFFECTIVE_PRICE_OFF + 4) 4) * 2 ^ 32
      + leNat (slice (slice data CONFIG_OFFSET CONFIG_LEN)
        CONFIG_LAST_EFFECTIVE_PRICE_OFF 4) = 1234567 := by
    have hp := hprice
    simp only [readU64] at hp
    rw [if_neg (by rw [hcfglen]; simp only [CONFIG_LAST_EFFECTIVE_PRICE_OFF]; omega)] at hp
    exact hp
  -- assemble the decode
  have hc3 : (List.take 32 (List.drop 32 (slice data CONFIG_OFFSET CONFIG_LEN))).length
      = 32 := by
    rw [List.length_take, List.length_drop, length_slice]
    simp only [CONFIG_OFFSET, CONFIG_LEN]
    omega
  have hc4 : ¬ ((slice data CONFIG_OFFSET CONFIG_LEN).length < CONFIG_LEN) := by
    rw [length_slice]
    simp only [CONFIG_OFFSET, CONFIG_LEN]
    omega
  simp only [decodeSlab, if_neg (show ¬ data.length < 8 by omega),
    if_neg (show ¬ (leNat (slice data 0 8) ≠ expectedMagic) from fun hn => hn hmag),
    hc3, if_neg (show ¬ (32 : Nat) < 32 by omega), if_neg hc4]
  refine ⟨_, rfl, ?_, ?_, ?_⟩
  · show (scanWords data (readU16 (data.drop ENGINE_OFF) ENGINE_NUM_USED_OFF)
      0 BITMAP_WORDS 0).1.length = 2
    rw [hused]
    simp only [BITMAP_WORDS]
    rw [hscan]
    rfl
  · show ((scanWords data (readU16 (data.drop ENGINE_OFF) ENGINE_NUM_USED_OFF)
      0 BITMAP_WORDS 0).1).map (fun a => a.accountId) = [0, 2]
    rw [hused]
    simp only [BITMAP_WORDS]
    rw [hscan]
    simp [ha0id, ha2id]
  · exact hpe

/-- If every bitmap word from `wordIdx` through the remaining fuel reads
zero, the word loop emits nothing. -/
theorem scanWords_zero_words (data : List Nat) (numUsed : Nat) :
    ∀ fuel wordIdx parsed,
      (∀ w, wordIdx ≤ w → w < wordIdx + fuel →
        leNat (slice data (ENGINE_OFF + ENGINE_BITMAP_OFF + w * 8) 8) = 0) →
      scanWords data numUsed wordIdx fuel parsed = ([], parsed) := by
  intro fuel
  induction fuel with
  | zero =>
    intro wordIdx parsed _
    exact scanWords_zero ..
  | succ fuel ih =>
    intro wordIdx parsed hz
    rw [scanWords_succ]
    by_cases h1 : parsed ≥ numUsed
    · rw [if_pos h1]
    · rw [if_neg h1]
      by_cases h2 : ENGINE_OFF + ENGINE_BITMAP_OFF + wordIdx * 8 + 8 > data.length
      · rw [if_pos h2]
      · rw [if_neg h2, if_pos (hz wordIdx (by omega) (by omega))]
        exact ih (wordIdx + 1) parsed fun w hw1 hw2 => hz w (by omega) (by omega)

/-- The concrete buffer of the spec's §8 scenario: valid magic, the u64
`1234567` at config offset 312 (absolute offset 384), bitmap word 0 equal
to `0b101` at absolute offset 800, `numUsedAccounts = 2` at absolute
offset 1312, zeros elsewhere; total length 10248, covering the records at
slots 0, 1 and 2. -/
def scenarioBuf : List Nat :=
  [84, 65, 76, 79, 67, 82, 69, 80] ++ (List.replicate 376 0 ++
  ([135, 214, 18, 0, 0, 0, 0, 0] ++ (List.replicate 408 0 ++
  ([5, 0, 0, 0, 0, 0, 0, 0] ++ (List.replicate 504 0 ++
  ([2, 0] ++ List.replicate 8934 0))))))

theorem scenarioBuf_length : scenarioBuf.length = 10248 := by
  simp only [scenarioBuf, List.length_append, List.length_replicate,
    List.length_cons, List.length_nil]

theorem scenarioBuf_magic : leNat (slice scenarioBuf 0 8) = expectedMagic := by
  rw [scenarioBuf, slice_append_left _ _ _ _ (by simp)]
  decide

theorem scenarioBuf_price :
    readU64 (slice scenarioBuf CONFIG_OFFSET CONFIG_LEN) CONFIG_LAST_EFFECTIVE_PRICE_OFF
      = 1234567 := by
  simp only [CONFIG_OFFSET, CONFIG_LEN, CONFIG_LAST_EFFECTIVE_PRICE_OFF]
  rw [show (320 : Nat) = 312 + 8 from rfl, slice_split]
  rw [scenarioBuf, slice_append_right _ _ _ _ (by simp),
    slice_append_left _ _ _ _ (by simp),
    slice_append_right _ _ _ _ (by simp),
    slice_append_right _ _ _ _ (by simp),
    slice_append_left _ _ _ _ (by simp),
    slice_replicate]
  decide

theorem scenarioBuf_word0 :
    leNat (slice scenarioBuf (ENGINE_OFF + ENGINE_BITMAP_OFF) 8) = 5 := by
  simp only [ENGINE_OFF, ENGINE_BITMAP_OFF]
  rw [scenarioBuf, slice_append_right _ _ _ _ (by simp),
    slice_append_right _ _ _ _ (by simp),
    slice_append_right _ _ _ _ (by simp),
    slice_append_right _ _ _ _ (by simp),
    slice_append_left _ _ _ _ (by simp)]
  decide

theorem scenarioBuf_used :
    readU16 (scenarioBuf.drop ENGINE_OFF) ENGINE_NUM_USED_OFF = 2 := by
  simp only [ENGINE_OFF, ENGINE_NUM_USED_OFF]
  unfold readU16
  rw [if_neg (by rw [List.length_drop, scenarioBuf_length]; omega), slice_drop]
  rw [scenarioBuf, slice_append_right _ _ _ _ (by simp),
    slice_append_right _ _ _ _ (by simp),
    slice_append_right _ _ _ _ (by simp),
    slice_append_right _ _ _ _ (by simp),
    slice_append_right _ _ _ _ (by simp),
    slice_append_right _ _ _ _ (by simp),
    slice_append_left _ _ _ _ (by simp)]
  decide

theorem scenarioBuf_rec0 :
    ¬ readU64 (slice scenarioBuf (ENGINE_OFF + ENGINE_ACCOUNTS_OFF) ACCOUNT_SIZE) 0
      > 1000000 := by
  simp only [ENGINE_OFF, ENGINE_ACCOUNTS_OFF, ACCOUNT_SIZE]
  rw [scenarioBuf, slice_append_right _ _ _ _ (by simp),
    slice_append_right _ _ _ _ (by simp),
    slice_append_right _ _ _ _ (by simp),
    slice_append_right _ _ _ _ (by simp),
    slice_append_right _ _ _ _ (by simp),
    slice_append_right _ _ _ _ (by simp),
    slice_append_right _ _ _ _ (by simp),
    slice_replicate]
  decide

theorem scenarioBuf_rec2 :
    ¬ readU64 (slice scenarioBuf (ENGINE_OFF + ENGINE_ACCOUNTS_OFF + 2 * ACCOUNT_SIZE)
      ACCOUNT_SIZE) 0 > 1000000 := by
  simp only [ENGINE_OFF, ENGINE_ACCOUNTS_OFF, ACCOUNT_SIZE]
  rw [scenarioBuf, slice_append_right _ _ _ _ (by simp),
    slice_append_right _ _ _ _ (by simp),
    slice_append_right _ _ _ _ (by simp),
    slice_append_right _ _ _ _ (by simp),
    slice_append_right _ _ _ _ (by simp),
    slice_append_right _ _ _ _ (by simp),
    slice_append_right _ _ _ _ (by simp),
    slice_replicate]
  decide

/-- Witness for C6 on the concrete scenario buffer. -/
theorem c6_concrete_scenario_witness :
    ∃ s, decodeSlab scenarioBuf = .ok s ∧ s.totalAccounts = 2 ∧
      s.accounts.map (fun a => a.accountId) = [0, 2] ∧
      s.oraclePriceE6 = 1234567 :=
  c6_concrete_scenario scenarioBuf (by rw [scenarioBuf_length])
    scenarioBuf_magic scenarioBuf_price scenarioBuf_word0 scenarioBuf_used
    scenarioBuf_rec0 scenarioBuf_rec2

/-- A buffer truncated mid-record: valid magic, bitmap word 0 = `0b11`
(slots 0 and 1 live), `numUsedAccounts = 2`, zeros elsewhere, and total
length 10007 — one byte short of the end of slot 1's 240-byte record
range `[9768, 10008)`, which therefore starts inside the buffer but ends
past it. -/
def truncBuf : List Nat :=
  [84, 65, 76, 79, 67, 82, 69, 80] ++ (List.replicate 792 0 ++
  ([3, 0, 0, 0, 0, 0, 0, 0] ++ (List.replicate 504 0 ++
  ([2, 0] ++ List.replicate 8693 0))))

theorem truncBuf_length : truncBuf.length = 10007 := by
  simp only [truncBuf, List.length_append, List.length_replicate,
    List.length_cons, List.length_nil]

theorem truncBuf_magic : leNat (slice truncBuf 0 8) = expectedMagic := by
  rw [truncBuf, slice_append_left _ _ _ _ (by simp)]
  decide

theorem truncBuf_word0 :
    leNat (slice truncBuf (ENGINE_OFF + ENGINE_BITMAP_OFF) 8) = 3 := by
  simp only [ENGINE_OFF, ENGINE_BITMAP_OFF]
  rw [truncBuf, slice_append_right _ _ _ _ (by simp),
    slice_append_right _ _ _ _ (by simp),
    slice_append_left _ _ _ _ (by simp)]
  decide

theorem truncBuf_used :
    readU16 (truncBuf.drop ENGINE_OFF) ENGINE_NUM_USED_OFF = 2 := by
  simp only [ENGINE_OFF, ENGINE_NUM_USED_OFF]
  unfold readU16
  rw [if_neg (by rw [List.length_drop, truncBuf_length]; omega), slice_drop]
  rw [truncBuf, slice_append_right _ _ _ _ (by simp),
    slice_append_right _ _ _ _ (by simp),
    slice_append_right _ _ _ _ (by simp),
    slice_append_right _ _ _ _ (by simp),
    slice_append_left _ _ _ _ (by simp)]
  decide

theorem truncBuf_zero_words :
    ∀ w, 1 ≤ w → w < 64 →
      leNat (slice truncBuf (ENGINE_OFF + ENGINE_BITMAP_OFF + w * 8) 8) = 0 := by
  intro w h1 h2
  simp only [ENGINE_OFF, ENGINE_BITMAP_OFF]
  rw [truncBuf,
    slice_append_right _ _ _ _ (by simp only [List.length_cons, List.length_nil]; omega),
    slice_append_right _ _ _ _ (by simp only [List.length_replicate,
      List.length_cons, List.length_nil]; omega),
    slice_append_right _ _ _ _ (by simp only [List.length_replicate,
      List.length_cons, List.length_nil]; omega),
    slice_append_left _ _ _ _ (by simp only [List.length_replicate,
      List.length_cons, List.length_nil]; omega),
    slice_replicate]
  simp only [List.length_cons, List.length_nil, List.length_replicate]
  have e : min 8 (504 - (392 + 408 + w * 8 - 8 - 792 - 8)) = 8 := by omega
  rw [e]
  exact leNat_replicate_zero 8

theorem truncBuf_rec0 :
    parseAccount (slice truncBuf
      (ENGINE_OFF + ENGINE_ACCOUNTS_OFF + (0 * 64 + 0) * ACCOUNT_SIZE) ACCOUNT_SIZE)
      (0 * 64 + 0) = some zeroAccount := by
  simp only [ENGINE_OFF, ENGINE_ACCOUNTS_OFF, ACCOUNT_SIZE]
  rw [truncBuf, slice_append_right _ _ _ _ (by simp),
    slice_append_right _ _ _ _ (by simp),
    slice_append_right _ _ _ _ (by simp),
    slice_append_right _ _ _ _ (by simp),
    slice_append_right _ _ _ _ (by simp),
    slice_replicate]
  decide

/-- C3 counterexample: on a valid-magic buffer with bitmap word 0 = `0b11`
and `numUsedAccounts = 2`, truncated one byte before the end of slot 1's
240-byte record range, decoding succeeds but returns only the (fully
decoded, all-zero) record at slot 0: the truncated record is omitted, not
reported with zero-valued scalar fields as the claim states. -/
theorem c3_truncation_counterexample :
    truncBuf.length + 1 = ENGINE_OFF + ENGINE_ACCOUNTS_OFF + 2 * ACCOUNT_SIZE ∧
    leNat (slice truncBuf (ENGINE_OFF + ENGINE_BITMAP_OFF) 8) = 3 ∧
    readU16 (truncBuf.drop ENGINE_OFF) ENGINE_NUM_USED_OFF = 2 ∧
    (decodeSlab truncBuf).map (fun s => (s.totalAccounts, s.accounts))
      = .ok (1, [zeroAccount]) := by
  refine ⟨by rw [truncBuf_length]; decide, truncBuf_word0, truncBuf_used, ?_⟩
  have hw0 : leNat (slice truncBuf (ENGINE_OFF + ENGINE_BITMAP_OFF + 0 * 8) 8) = 3 := by
    simpa using truncBuf_word0
  have hb1 : scanBits truncBuf 2 3 0 1 63 1 = ([], 1) := by
    rw [scanBits_succ, if_neg (by omega), if_pos (by decide),
      if_neg (show ¬ (0 * 64 + 1 ≥ MAX_ACCOUNTS) by simp only [MAX_ACCOUNTS]; omega),
      if_pos (show ENGINE_OFF + ENGINE_ACCOUNTS_OFF + (0 * 64 + 1) * ACCOUNT_SIZE
        + ACCOUNT_SIZE > truncBuf.length by
          simp only [ENGINE_OFF, ENGINE_ACCOUNTS_OFF, ACCOUNT_SIZE, truncBuf_length]
          omega)]
  have hb0 : scanBits truncBuf 2 3 0 0 64 0 = ([zeroAccount], 1) := by
    rw [scanBits_succ, if_neg (by omega), if_pos (by decide),
      if_neg (show ¬ (0 * 64 + 0 ≥ MAX_ACCOUNTS) by simp only [MAX_ACCOUNTS]; omega),
      if_neg (show ¬ (ENGINE_OFF + ENGINE_ACCOUNTS_OFF + (0 * 64 + 0) * ACCOUNT_SIZE
        + ACCOUNT_SIZE > truncBuf.length) by
          simp only [ENGINE_OFF, ENGINE_ACCOUNTS_OFF, ACCOUNT_SIZE, truncBuf_length]
          omega)]
    simp only [truncBuf_rec0]
    rw [hb1]
  have hwrest : scanWords truncBuf 2 1 63 1 = ([], 1) :=
    scanWords_zero_words truncBuf 2 63 1 1
      (fun w hw1 hw2 => truncBuf_zero_words w hw1 (by omega))
  have hscan : (scanWords truncBuf 2 0 64 0).1 = [zeroAccount] := by
    rw [scanWords_succ, if_neg (by omega),
      if_neg (show ¬ (ENGINE_OFF + ENGINE_BITMAP_OFF + 0 * 8 + 8 > truncBuf.length) by
        simp only [ENGINE_OFF, ENGINE_BITMAP_OFF, truncBuf_length]; omega),
      if_neg (show ¬ (leNat (slice truncBuf (ENGINE_OFF + ENGINE_BITMAP_OFF + 0 * 8) 8) = 0) by
        rw [hw0]; omega),
      hw0, hb0, hwrest]
    simp
  have hc3 : (List.take 32 (List.drop 32 (slice truncBuf CONFIG_OFFSET CONFIG_LEN))).length
      = 32 := by
    rw [List.length_take, List.length_drop, length_slice, truncBuf_length]
    simp only [CONFIG_OFFSET, CONFIG_LEN]
    omega
  have hc4 : ¬ ((slice truncBuf CONFIG_OFFSET CONFIG_LEN).length < CONFIG_LEN) := by
    rw [length_slice, truncBuf_length]
    simp only [CONFIG_OFFSET, CONFIG_LEN]
    omega
  simp only [decodeSlab, if_neg (show ¬ truncBuf.length < 8 by rw [truncBuf_length]; omega),
    if_neg (show ¬ (leNat (slice truncBuf 0 8) ≠ expectedMagic) from
      fun hn => hn truncBuf_magic),
    hc3, if_neg (show ¬ (32 : Nat) < 32 by omega), if_neg hc4, Except.map]
  rw [Except.ok.injEq, Prod.mk.injEq]
  constructor
  · show (scanWords truncBuf (readU16 (truncBuf.drop ENGINE_OFF) ENGINE_NUM_USED_OFF)
      0 BITMAP_WORDS 0).1.length = 1
    rw [truncBuf_used]
    simp only [BITMAP_WORDS]
    rw [hscan]
    rfl
  · show (scanWords truncBuf (readU16 (truncBuf.drop ENGINE_OFF) ENGINE_NUM_USED_OFF)
      0 BITMAP_WORDS 0).1 = [zeroAccount]
    rw [truncBuf_used]
    simp only [BITMAP_WORDS]
    exact hscan

/-- Witness for the amended C3 theorem: both conjuncts instantiated on a
concrete valid buffer. -/
theorem c3_truncated_record_skipped_witness :
    leNat (slice magicBuf392 0 8) = expectedMagic ∧
    ENGINE_OFF ≤ magicBuf392.length ∧
    (∃ s, decodeSlab magicBuf392 = .ok s) ∧
    (∀ a ∈ emptySlab.accounts,
      ENGINE_OFF + ENGINE_ACCOUNTS_OFF + a.accountId * ACCOUNT_SIZE + ACCOUNT_SIZE
        ≤ magicBuf392.length) :=
  ⟨by decide, by decide,
    (c3_truncated_record_skipped magicBuf392).1 (by decide) (by decide),
    (c3_truncated_record_skipped magicBuf392).2 emptySlab (by decide)⟩

end LunarMarkets
